import Mathlib
/-!
Verification development for the two analytics report templates:
the cohort-retention calculator (`cohort_analysis.py`) and the
sales-funnel conversion calculator (`sales_funnel.py`).

Dates are modelled as natural numbers with `monthOf d = d / 32`
(a calendar date `(year-month, day)` encoded as `ym * 32 + day`, so the
numeric order coincides with calendar order and `monthOf` is the
`to_period('M')` month extraction, monotone in the date).
Percentages are modelled as rationals.
-/

namespace Cohort

/-- One event record of the cohort pipeline: `{user_id, date}`
(the optional `event` label is never used by the aggregation). -/
structure CohortEvent where
  user_id : ℕ
  date : ℕ
deriving DecidableEq, Repr

/-- Month extraction: the calendar month containing an encoded date
(pandas to_period with monthly frequency). -/
def monthOf (d : ℕ) : ℕ := d / 32

/-- The set of dates on which user `u` has an event (the date column
grouped by user). -/
def userDates (l : List CohortEvent) (u : ℕ) : Finset ℕ :=
  ((l.filter (fun r => r.user_id = u)).map (fun r => r.date)).toFinset

/-- The earliest event date of user `u`, as produced by grouping on the
user and transforming with min (0 when `u` has no events; only applied to
users present in `l`). -/
def userMinDate (l : List CohortEvent) (u : ℕ) : ℕ :=
  if h : (userDates l u).Nonempty then (userDates l u).min' h else 0

/-- Cohort month of a user: the month of the earliest event of that user. -/
def cohortMonth (l : List CohortEvent) (u : ℕ) : ℕ :=
  monthOf (userMinDate l u)

/-- Elapsed period count of a record: months between its activity month
and the cohort month of its owner. -/
def periodNumber (l : List CohortEvent) (r : CohortEvent) : ℕ :=
  monthOf r.date - cohortMonth l r.user_id

/-- The distinct users populating the `(cohort month, period)` cell of the
grouped table (group by cohort month and period number, nunique over the
user column). -/
def cellUsers (l : List CohortEvent) (c p : ℕ) : Finset ℕ :=
  ((l.filter (fun r => cohortMonth l r.user_id = c ∧ periodNumber l r = p)).map
    (fun r => r.user_id)).toFinset

/-- Distinct-user count of a `(cohort, period)` cell. -/
def cohortCount (l : List CohortEvent) (c p : ℕ) : ℕ :=
  (cellUsers l c p).card

/-- A cell of `cohort_pivot`: `some count` where the group exists,
`none` (NaN) where the cohort has no events at that period. -/
def cohortCell (l : List CohortEvent) (c p : ℕ) : Option ℕ :=
  if 0 < cohortCount l c p then some (cohortCount l c p) else none

/-- The cohort months forming the rows of the pivot table. -/
def cohortsPresent (l : List CohortEvent) : Finset ℕ :=
  (l.map (fun r => cohortMonth l r.user_id)).toFinset

/-- The period numbers forming the columns of the pivot table. -/
def periodsPresent (l : List CohortEvent) : Finset ℕ :=
  (l.map (fun r => periodNumber l r)).toFinset

/-- The label of the pivot table's first column (`cohort_pivot.iloc[:, 0]`
selects the column with the smallest period label). -/
def firstColPeriod (l : List CohortEvent) : ℕ :=
  if h : (periodsPresent l).Nonempty then (periodsPresent l).min' h else 0

/-- Cohort sizes, read positionally from the first column of the pivot
table (iloc column 0). -/
def cohortSize (l : List CohortEvent) (c : ℕ) : ℕ :=
  cohortCount l c (firstColPeriod l)

/-- A cell of `retention = cohort_pivot.divide(cohort_sizes, axis=0) * 100`:
NaN cells stay NaN, others are divided by the row's cohort size. -/
def retention (l : List CohortEvent) (c p : ℕ) : Option ℚ :=
  (cohortCell l c p).map (fun n => (n : ℚ) / (cohortSize l c) * 100)

/-- The value of a present retention cell. -/
def retentionVal (l : List CohortEvent) (c p : ℕ) : ℚ :=
  (cohortCount l c p : ℚ) / (cohortSize l c) * 100

/-- The ascending list of the elements of a finite set of naturals: every
element is at most the set's sup, so filtering the range below `sup + 1`
enumerates the set in increasing order (the sorted axis of a pivot table). -/
def sortedAsc (s : Finset ℕ) : List ℕ :=
  (List.range (s.sup id + 1)).filter (fun x => x ∈ s)

/-- The rows of the pivot table: observed cohort months in ascending order. -/
def cohortRows (l : List CohortEvent) : List ℕ :=
  sortedAsc (cohortsPresent l)

/-- pandas `mean` with `skipna=True` over a column/row of optional values:
drop the NaN entries, average the rest; NaN (`none`) when nothing is left. -/
def nanmean (xs : List (Option ℚ)) : Option ℚ :=
  let vs := xs.reduceOption
  if vs.length = 0 then none else some (vs.sum / (vs.length : ℚ))

/-- Average retention at period column `p`: the NaN-skipping mean of that
column of the retention table over the cohort rows. -/
def avgRetention (l : List CohortEvent) (p : ℕ) : Option ℚ :=
  nanmean ((cohortRows l).map (fun c => retention l c p))

end Cohort

/-- pandas `Series.idxmin` over a list of (label, value) pairs: the pair of
the smallest value, first occurrence winning ties; `none` on an empty series. -/
def argminFirst : List (ℕ × ℚ) → Option (ℕ × ℚ)
  | [] => none
  | p :: rest =>
    match argminFirst rest with
    | none => some p
    | some q => if q.2 < p.2 then some q else some p

/-- pandas `Series.idxmax` over a list of (label, value) pairs: the pair of
the largest value, first occurrence winning ties; `none` on an empty series. -/
def argmaxFirst : List (ℕ × ℚ) → Option (ℕ × ℚ)
  | [] => none
  | p :: rest =>
    match argmaxFirst rest with
    | none => some p
    | some q => if p.2 < q.2 then some q else some p

namespace Cohort

/-- The sorted column labels of the pivot table (ascending period numbers). -/
def colList (l : List CohortEvent) : List ℕ :=
  sortedAsc (periodsPresent l)

/-- The column labels selected by `retention.iloc[:, 1:6]`: the positional
slice of the 2nd through 6th columns. -/
def cols15 (l : List CohortEvent) : List ℕ :=
  ((colList l).drop 1).take 5

/-- The row-wise `mean(axis=1)` of `retention.iloc[:, 1:6]` at cohort `c`. -/
def rowMean15 (l : List CohortEvent) (c : ℕ) : Option ℚ :=
  nanmean ((cols15 l).map (fun p => retention l c p))

/-- The labelled value series fed to `idxmax`/`idxmin`: one (cohort, mean)
pair per row whose mean is not NaN, in row order. -/
def rowPairs (f : ℕ → Option ℚ) (rows : List ℕ) : List (ℕ × ℚ) :=
  rows.filterMap (fun c => (f c).map (fun v => (c, v)))

/-- Best cohort: idxmax over the row-wise means of the positional column
slice 1:6 of the retention table. -/
def bestCohort (l : List CohortEvent) : Option ℕ :=
  (argmaxFirst (rowPairs (rowMean15 l) (cohortRows l))).map (fun q => q.1)

/-- Worst cohort: idxmin over the row-wise means of the positional column
slice 1:6 of the retention table. -/
def worstCohort (l : List CohortEvent) : Option ℕ :=
  (argminFirst (rowPairs (rowMean15 l) (cohortRows l))).map (fun q => q.1)

/-- The spec's row mean: mean retention across elapsed periods 1 through 5
(by label), ignoring missing cells. Stated from the spec's words, for
comparison with `rowMean15`. -/
def specRowMean15 (l : List CohortEvent) (c : ℕ) : Option ℚ :=
  nanmean (([1, 2, 3, 4, 5] : List ℕ).map (fun p => retention l c p))

/-- The spec's best cohort: the cohort whose mean retention across elapsed
periods 1–5 is highest (first-in-order on ties). -/
def specBestCohort (l : List CohortEvent) : Option ℕ :=
  (argmaxFirst (rowPairs (specRowMean15 l) (cohortRows l))).map (fun q => q.1)

/-- The spec's worst cohort: the cohort whose mean retention across elapsed
periods 1–5 is lowest (first-in-order on ties). -/
def specWorstCohort (l : List CohortEvent) : Option ℕ :=
  (argminFirst (rowPairs (specRowMean15 l) (cohortRows l))).map (fun q => q.1)

end Cohort

namespace Funnel

/-- One event record of the funnel pipeline: `{user_id, stage, date}`. -/
structure FunnelEvent where
  user_id : ℕ
  stage : String
  date : ℕ
deriving DecidableEq, Repr

/-- Distinct users whose records include stage `s` (stage membership, not
path traversal). -/
def stageUsers (l : List FunnelEvent) (s : String) : ℕ :=
  ((l.filter (fun r => r.stage = s)).map (fun r => r.user_id)).toFinset.card

/-- Total leads: the number of distinct users in the whole dataset. -/
def totalLeads (l : List FunnelEvent) : ℕ :=
  (l.map (fun r => r.user_id)).toFinset.card

/-- pandas `Series.unique()`: the distinct values of a column in order of
first appearance. -/
def uniqueFirstSeen : List String → List String
  | [] => []
  | s :: rest => s :: uniqueFirstSeen (rest.filter (fun t => t ≠ s))
termination_by l => l.length
decreasing_by
  simp only [List.length_cons]
  exact Nat.lt_succ_of_le (List.length_filter_le _ _)

/-- The configured stage order, as a function of the substituted stage
configuration string: split on commas when the string is non-empty,
otherwise the distinct stage values observed in the data in first-seen
order. -/
def funnelStages (stagesStr : String) (l : List FunnelEvent) : List String :=
  if stagesStr ≠ "" then stagesStr.splitOn ","
  else uniqueFirstSeen (l.map (fun r => r.stage))

/-- One row of `funnel_df`. -/
structure StageMetric where
  stage : String
  users : ℕ
  overall_conversion : ℚ
  stage_conversion : ℚ
deriving DecidableEq, Repr

/-- The metric-building loop: walks the configured stages carrying the
recorded user count of the previous stage (the users field of the previous
metric row), `none` before the first stage. -/
def funnelMetricsAux (l : List FunnelEvent) (total : ℕ) :
    Option ℕ → List String → List StageMetric
  | _, [] => []
  | prev, s :: rest =>
    { stage := s
      users := stageUsers l s
      overall_conversion :=
        if 0 < total then (stageUsers l s : ℚ) / (total : ℚ) * 100 else 0
      stage_conversion :=
        match prev with
        | none => 100
        | some pu =>
          if 0 < pu then (stageUsers l s : ℚ) / (pu : ℚ) * 100 else 0 } ::
      funnelMetricsAux l total (some (stageUsers l s)) rest

/-- The funnel metrics table: one metric row per configured stage. -/
def funnelMetrics (l : List FunnelEvent) (stages : List String) :
    List StageMetric :=
  funnelMetricsAux l (totalLeads l) none stages

/-- Placeholder row used only as the out-of-range default of `getD`. -/
def defaultMetric : StageMetric := ⟨"", 0, 0, 0⟩

/-- Row `i` of the funnel metrics table (iloc on the default index). -/
def metricAt (l : List FunnelEvent) (stages : List String) (i : ℕ) :
    StageMetric :=
  (funnelMetrics l stages).getD i defaultMetric

/-- Drop-off between consecutive stages: the recorded user count of the
current stage minus that of the next one (python integer subtraction, may
be negative). -/
def dropoffAt (l : List FunnelEvent) (stages : List String) (i : ℕ) : ℤ :=
  ((metricAt l stages i).users : ℤ) - ((metricAt l stages (i + 1)).users : ℤ)

/-- Drop-off rate: drop-off over the current stage count times 100 when
that count is positive, else 0. -/
def dropoffRateAt (l : List FunnelEvent) (stages : List String) (i : ℕ) : ℚ :=
  if 0 < (metricAt l stages i).users then
    ((dropoffAt l stages i : ℤ) : ℚ) / ((metricAt l stages i).users : ℚ) * 100
  else 0

/-- The `stage_conversion` column as a labelled series, labels starting
at `k` (`funnel_df` has the default integer index 0,1,...). -/
def convSeries (k : ℕ) : List StageMetric → List (ℕ × ℚ)
  | [] => []
  | m :: rest => (k, m.stage_conversion) :: convSeries (k + 1) rest

/-- The stage conversion column of the funnel table with its index. -/
def scSeries (l : List FunnelEvent) (stages : List String) : List (ℕ × ℚ) :=
  convSeries 0 (funnelMetrics l stages)

/-- Biggest drop-off index: idxmin of the stage conversion series with
its first entry dropped (iloc slice from 1). -/
def biggestDropoffIdx (l : List FunnelEvent) (stages : List String) :
    Option ℕ :=
  (argminFirst ((scSeries l stages).drop 1)).map (fun q => q.1)

/-- Best conversion index: idxmax of the stage conversion series with
its first entry dropped (iloc slice from 1). -/
def bestStageIdx (l : List FunnelEvent) (stages : List String) : Option ℕ :=
  (argmaxFirst ((scSeries l stages).drop 1)).map (fun q => q.1)

/-- Index of the first occurrence of `x` in a list (list length when
absent); used to state the first-seen-order property. -/
def firstIdx (x : String) : List String → ℕ
  | [] => 0
  | s :: rest => if s = x then 0 else firstIdx x rest + 1

end Funnel

/-- Outcome of running a substituted script: either the template-mode early
exit (with its process exit status, after printing the expected-format
hint) or a completed aggregation carrying its result. -/
inductive ScriptResult (α : Type) where
  | templateHint (exitCode : ℕ)
  | completed (out : α)

/-- The literal data placeholder string both scripts compare against. -/
def dataPlaceholder : String := "\x7b\x7bdata\x7d\x7d"

/-- Top of `cohort_analysis.py`: detect an unsubstituted placeholder and
exit 0 before any aggregation; otherwise parse and build the retention
table. -/
def cohortMain (parse : String → List Cohort.CohortEvent)
    (data_json : String) : ScriptResult (ℕ → ℕ → Option ℚ) :=
  if data_json = dataPlaceholder then ScriptResult.templateHint 0
  else ScriptResult.completed (fun c p => Cohort.retention (parse data_json) c p)

/-- Top of `sales_funnel.py`: detect an unsubstituted placeholder and exit 0
before any aggregation; otherwise parse and build the funnel metrics. -/
def funnelMain (parse : String → List Funnel.FunnelEvent)
    (data_json stagesStr : String) : ScriptResult (List Funnel.StageMetric) :=
  if data_json = dataPlaceholder then ScriptResult.templateHint 0
  else ScriptResult.completed
    (Funnel.funnelMetrics (parse data_json)
      (Funnel.funnelStages stagesStr (parse data_json)))

/-- The spec's cohort scenario: users 1 and 2, both first active in month
600, user 1 returning one month later, user 2 two months later. -/
def wCohort : List Cohort.CohortEvent :=
  [⟨1, 19210⟩, ⟨1, 19237⟩, ⟨2, 19220⟩, ⟨2, 19265⟩]

/-- A cohort input whose period columns are the non-contiguous set
{0, 1, 7}: cohort 600 (users 1, 2) and cohort 601 (users 3, 4, 5). -/
def cexCohort : List Cohort.CohortEvent :=
  [⟨1, 19201⟩, ⟨2, 19201⟩, ⟨1, 19233⟩, ⟨2, 19233⟩, ⟨1, 19425⟩,
   ⟨3, 19233⟩, ⟨4, 19233⟩, ⟨5, 19233⟩, ⟨3, 19265⟩, ⟨4, 19265⟩,
   ⟨3, 19457⟩, ⟨4, 19457⟩, ⟨5, 19457⟩]

/-- Two-event cohort input and its reversal, for permutation invariance. -/
def wPermA : List Cohort.CohortEvent := [⟨1, 19210⟩, ⟨2, 19220⟩]

/-- Reversal of `wPermA`. -/
def wPermB : List Cohort.CohortEvent := [⟨2, 19220⟩, ⟨1, 19210⟩]

/-- The spec's funnel scenario: lead = {1,2,3}, qualified = {1,2},
closed = {1}. -/
def wFunnel : List Funnel.FunnelEvent :=
  [⟨1, "lead", 1⟩, ⟨2, "lead", 1⟩, ⟨3, "lead", 1⟩,
   ⟨1, "qualified", 2⟩, ⟨2, "qualified", 2⟩, ⟨1, "closed", 3⟩]

/-- The spec's funnel scenario stage order. -/
def wStages : List String := ["lead", "qualified", "closed"]

namespace Cohort

lemma mem_userDates_of_mem {l : List CohortEvent} {r : CohortEvent}
    (hr : r ∈ l) : r.date ∈ userDates l r.user_id := by
  unfold userDates
  rw [List.mem_toFinset, List.mem_map]
  exact ⟨r, List.mem_filter.mpr ⟨hr, by simp⟩, rfl⟩

lemma userMinDate_le {l : List CohortEvent} {r : CohortEvent}
    (hr : r ∈ l) : userMinDate l r.user_id ≤ r.date := by
  unfold userMinDate
  have hmem := mem_userDates_of_mem hr
  rw [dif_pos ⟨r.date, hmem⟩]
  exact Finset.min'_le _ _ hmem

lemma exists_min_record {l : List CohortEvent} {u : ℕ}
    (h : ∃ r ∈ l, r.user_id = u) :
    ∃ r0 ∈ l, r0.user_id = u ∧ r0.date = userMinDate l u := by
  obtain ⟨r, hr, hru⟩ := h
  have hmem : r.date ∈ userDates l u := by
    subst hru; exact mem_userDates_of_mem hr
  have hne : (userDates l u).Nonempty := ⟨r.date, hmem⟩
  have hmin : userMinDate l u ∈ userDates l u := by
    unfold userMinDate
    rw [dif_pos hne]
    exact Finset.min'_mem _ _
  unfold userDates at hmin
  rw [List.mem_toFinset, List.mem_map] at hmin
  obtain ⟨r0, hr0, hdate⟩ := hmin
  rw [List.mem_filter] at hr0
  refine ⟨r0, hr0.1, ?_, hdate⟩
  simpa using hr0.2

lemma periodNumber_min_record {l : List CohortEvent} {u : ℕ} {r0 : CohortEvent}
    (hru : r0.user_id = u) (hdate : r0.date = userMinDate l u) :
    periodNumber l r0 = 0 := by
  unfold periodNumber cohortMonth
  rw [hru, hdate, Nat.sub_self]

lemma zero_mem_periodsPresent {l : List CohortEvent} (h : l ≠ []) :
    0 ∈ periodsPresent l := by
  obtain ⟨r, hr⟩ := List.exists_mem_of_ne_nil l h
  obtain ⟨r0, hr0, hru, hdate⟩ := exists_min_record ⟨r, hr, rfl⟩
  unfold periodsPresent
  rw [List.mem_toFinset, List.mem_map]
  exact ⟨r0, hr0, periodNumber_min_record hru hdate⟩

lemma firstColPeriod_eq_zero {l : List CohortEvent} (h : l ≠ []) :
    firstColPeriod l = 0 := by
  have h0 := zero_mem_periodsPresent h
  unfold firstColPeriod
  rw [dif_pos ⟨0, h0⟩]
  exact Nat.le_zero.mp (Finset.min'_le _ _ h0)

lemma cohortSize_eq_count_zero {l : List CohortEvent} (h : l ≠ []) (c : ℕ) :
    cohortSize l c = cohortCount l c 0 := by
  unfold cohortSize
  rw [firstColPeriod_eq_zero h]

lemma count_zero_pos {l : List CohortEvent} {c : ℕ}
    (h : c ∈ cohortsPresent l) : 0 < cohortCount l c 0 := by
  unfold cohortsPresent at h
  rw [List.mem_toFinset, List.mem_map] at h
  obtain ⟨r, hr, hc⟩ := h
  obtain ⟨r0, hr0, hru, hdate⟩ := exists_min_record ⟨r, hr, rfl⟩
  have hmem : r0.user_id ∈ cellUsers l c 0 := by
    unfold cellUsers
    rw [List.mem_toFinset, List.mem_map]
    refine ⟨r0, List.mem_filter.mpr ⟨hr0, ?_⟩, rfl⟩
    have hpc : cohortMonth l r0.user_id = c := by rw [hru]; exact hc
    have hp0 : periodNumber l r0 = 0 := periodNumber_min_record hru hdate
    simp [hpc, hp0]
  exact Finset.card_pos.mpr ⟨r0.user_id, hmem⟩

lemma ne_nil_of_count_pos {l : List CohortEvent} {c p : ℕ}
    (h : 0 < cohortCount l c p) : l ≠ [] := by
  intro hnil
  subst hnil
  simp [cohortCount, cellUsers] at h

lemma retention_isSome_iff {l : List CohortEvent} {c p : ℕ} :
    (retention l c p).isSome = true ↔ 0 < cohortCount l c p := by
  unfold retention cohortCell
  by_cases h : 0 < cohortCount l c p <;> simp [h]

lemma retention_eq_some {l : List CohortEvent} {c p : ℕ} {v : ℚ}
    (h : retention l c p = some v) : v = retentionVal l c p := by
  unfold retention at h
  rw [Option.map_eq_some'] at h
  obtain ⟨a, ha, hv⟩ := h
  unfold cohortCell at ha
  by_cases hc : 0 < cohortCount l c p
  · rw [if_pos hc] at ha
    injection ha with ha'
    rw [← hv, ← ha']
    rfl
  · rw [if_neg hc] at ha
    exact absurd ha (by simp)

lemma reduceOption_map_eq_filter_map (L : List ℕ) (f : ℕ → Option ℚ)
    (g : ℕ → ℚ) (hg : ∀ c v, f c = some v → v = g c) :
    (L.map f).reduceOption =
      (L.filter (fun c => (f c).isSome)).map g := by
  induction L with
  | nil => rfl
  | cons a L ih =>
    cases h : f a with
    | none => simp [h, List.reduceOption_cons_of_none, ih]
    | some v =>
      have hv : v = g a := hg a v h
      simp [h, List.reduceOption_cons_of_some, ih, hv]

end Cohort

lemma argminFirst_spec : ∀ (pairs : List (ℕ × ℚ)), pairs ≠ [] →
    pairs.Pairwise (fun a b => a.1 < b.1) →
    ∃ p, argminFirst pairs = some p ∧ p ∈ pairs ∧
      (∀ q ∈ pairs, p.2 ≤ q.2) ∧ (∀ q ∈ pairs, q.1 < p.1 → p.2 < q.2) := by
  intro pairs
  induction pairs with
  | nil => intro h; exact absurd rfl h
  | cons p0 rest ih =>
    intro _ hpw
    obtain ⟨hp0, hrest⟩ := List.pairwise_cons.mp hpw
    rcases eq_or_ne rest [] with hre | hre
    · subst hre
      refine ⟨p0, by simp [argminFirst], List.mem_cons_self _ _, ?_, ?_⟩
      · intro q hq
        rw [List.mem_singleton.mp hq]
      · intro q hq hlt
        rw [List.mem_singleton.mp hq] at hlt
        exact absurd hlt (lt_irrefl _)
    · obtain ⟨pr, hpr_eq, hpr_mem, hpr_min, hpr_first⟩ := ih hre hrest
      by_cases h : pr.2 < p0.2
      · refine ⟨pr, by simp [argminFirst, hpr_eq, h], List.mem_cons_of_mem _ hpr_mem, ?_, ?_⟩
        · intro q hq
          rcases List.mem_cons.mp hq with hq0 | hqr
          · rw [hq0]; exact le_of_lt h
          · exact hpr_min q hqr
        · intro q hq hlt
          rcases List.mem_cons.mp hq with hq0 | hqr
          · rw [hq0]; exact h
          · exact hpr_first q hqr hlt
      · refine ⟨p0, by simp [argminFirst, hpr_eq, h], List.mem_cons_self _ _, ?_, ?_⟩
        · intro q hq
          rcases List.mem_cons.mp hq with hq0 | hqr
          · rw [hq0]
          · exact le_trans (not_lt.mp h) (hpr_min q hqr)
        · intro q hq hlt
          rcases List.mem_cons.mp hq with hq0 | hqr
          · rw [hq0] at hlt; exact absurd hlt (lt_irrefl _)
          · exact absurd hlt (not_lt.mpr (le_of_lt (hp0 q hqr)))

lemma argmaxFirst_spec : ∀ (pairs : List (ℕ × ℚ)), pairs ≠ [] →
    pairs.Pairwise (fun a b => a.1 < b.1) →
    ∃ p, argmaxFirst pairs = some p ∧ p ∈ pairs ∧
      (∀ q ∈ pairs, q.2 ≤ p.2) ∧ (∀ q ∈ pairs, q.1 < p.1 → q.2 < p.2) := by
  intro pairs
  induction pairs with
  | nil => intro h; exact absurd rfl h
  | cons p0 rest ih =>
    intro _ hpw
    obtain ⟨hp0, hrest⟩ := List.pairwise_cons.mp hpw
    rcases eq_or_ne rest [] with hre | hre
    · subst hre
      refine ⟨p0, by simp [argmaxFirst], List.mem_cons_self _ _, ?_, ?_⟩
      · intro q hq
        rw [List.mem_singleton.mp hq]
      · intro q hq hlt
        rw [List.mem_singleton.mp hq] at hlt
        exact absurd hlt (lt_irrefl _)
    · obtain ⟨pr, hpr_eq, hpr_mem, hpr_max, hpr_first⟩ := ih hre hrest
      by_cases h : p0.2 < pr.2
      · refine ⟨pr, by simp [argmaxFirst, hpr_eq, h], List.mem_cons_of_mem _ hpr_mem, ?_, ?_⟩
        · intro q hq
          rcases List.mem_cons.mp hq with hq0 | hqr
          · rw [hq0]; exact le_of_lt h
          · exact hpr_max q hqr
        · intro q hq hlt
          rcases List.mem_cons.mp hq with hq0 | hqr
          · rw [hq0]; exact h
          · exact hpr_first q hqr hlt
      · refine ⟨p0, by simp [argmaxFirst, hpr_eq, h], List.mem_cons_self _ _, ?_, ?_⟩
        · intro q hq
          rcases List.mem_cons.mp hq with hq0 | hqr
          · rw [hq0]
          · exact le_trans (hpr_max q hqr) (not_lt.mp h)
        · intro q hq hlt
          rcases List.mem_cons.mp hq with hq0 | hqr
          · rw [hq0] at hlt; exact absurd hlt (lt_irrefl _)
          · exact absurd hlt (not_lt.mpr (le_of_lt (hp0 q hqr)))

namespace Cohort

lemma retention_eq_none_of_not_period {l : List CohortEvent} {p : ℕ}
    (h : p ∉ periodsPresent l) (c : ℕ) : retention l c p = none := by
  have hz : cohortCount l c p = 0 := by
    by_contra hc
    have hpos : 0 < cohortCount l c p := Nat.pos_of_ne_zero hc
    obtain ⟨u, hu⟩ := Finset.card_pos.mp hpos
    unfold cellUsers at hu
    rw [List.mem_toFinset, List.mem_map] at hu
    obtain ⟨r, hr, _⟩ := hu
    rw [List.mem_filter] at hr
    have hp : periodNumber l r = p := by
      have := hr.2
      simp only [decide_eq_true_eq] at this
      exact this.2
    exact h (by
      unfold periodsPresent
      rw [List.mem_toFinset, List.mem_map]
      exact ⟨r, hr.1, hp⟩)
  unfold retention cohortCell
  rw [hz]
  simp

lemma nanmean_congr {xs ys : List (Option ℚ)}
    (h : xs.reduceOption = ys.reduceOption) : nanmean xs = nanmean ys := by
  unfold nanmean
  rw [h]

lemma reduce_range_ext : ∀ (K : ℕ) (M : ℕ) (g : ℕ → Option ℚ), M ≤ K →
    (∀ j, M ≤ j → j < K → g j = none) →
    ((List.range K).map g).reduceOption = ((List.range M).map g).reduceOption := by
  intro K
  induction K with
  | zero =>
    intro M g hM _
    rw [Nat.le_zero.mp hM]
  | succ K ih =>
    intro M g hM habs
    rcases eq_or_lt_of_le hM with heq | hlt
    · rw [heq]
    · have hMK : M ≤ K := Nat.lt_succ_iff.mp hlt
      have hK : g K = none := habs K hMK (Nat.lt_succ_self K)
      rw [List.range_succ, List.map_append, List.reduceOption_append]
      simp only [List.map_cons, List.map_nil, hK,
        List.reduceOption_cons_of_none, List.reduceOption_nil, List.append_nil]
      exact ih M g hMK (fun j hj hjK => habs j hj (Nat.lt_succ_of_lt hjK))

lemma filter_lt_range : ∀ (m n : ℕ), n ≤ m →
    (List.range m).filter (fun x => decide (x < n)) = List.range n := by
  intro m
  induction m with
  | zero =>
    intro n hn
    rw [Nat.le_zero.mp hn]
    rfl
  | succ m ih =>
    intro n hn
    rcases eq_or_lt_of_le hn with heq | hlt
    · subst heq
      apply List.filter_eq_self.mpr
      intro x hx
      simp [List.mem_range.mp hx]
    · have hnm : n ≤ m := Nat.lt_succ_iff.mp hlt
      rw [List.range_succ, List.filter_append, ih n hnm]
      have hm : ¬ (m < n) := not_lt.mpr hnm
      simp [hm]

lemma sortedAsc_range (n : ℕ) : sortedAsc (Finset.range n) = List.range n := by
  unfold sortedAsc
  have hpred : (fun x => decide (x ∈ Finset.range n)) =
      (fun x => decide (x < n)) := by
    funext x
    exact decide_eq_decide.mpr Finset.mem_range
  rw [hpred]
  apply filter_lt_range
  cases n with
  | zero => exact Nat.zero_le _
  | succ k =>
    have hk : k ∈ Finset.range (k + 1) := Finset.mem_range.mpr (Nat.lt_succ_self k)
    have hle : id k ≤ (Finset.range (k + 1)).sup id := Finset.le_sup hk
    simp only [id] at hle
    omega

lemma cols15_of_range {l : List CohortEvent} {n : ℕ}
    (h : periodsPresent l = Finset.range n) :
    cols15 l = ((List.range (n - 1)).take 5).map (fun j => j + 1) := by
  have hcol : colList l = List.range n := by
    unfold colList
    rw [h]
    exact sortedAsc_range n
  unfold cols15
  rw [hcol]
  cases n with
  | zero => rfl
  | succ k =>
    rw [List.range_succ_eq_map k]
    simp only [List.drop_succ_cons, List.drop_zero, Nat.add_sub_cancel]
    exact (List.map_take _ _ _).symm

lemma rowMean15_eq_spec {l : List CohortEvent} {n : ℕ}
    (h : periodsPresent l = Finset.range n) (c : ℕ) :
    rowMean15 l c = specRowMean15 l c := by
  unfold rowMean15 specRowMean15
  apply nanmean_congr
  rw [cols15_of_range h, List.take_range 5 (n - 1)]
  have h15 : ([1, 2, 3, 4, 5] : List ℕ) = (List.range 5).map (fun j => j + 1) := by
    decide
  rw [h15, List.map_map, List.map_map]
  refine (reduce_range_ext 5 (min 5 (n - 1)) _ (min_le_left 5 (n - 1)) ?_).symm
  intro j hMj hj5
  have hn1j : n - 1 ≤ j := by
    by_cases h5 : n - 1 ≤ 5
    · rwa [min_eq_right h5] at hMj
    · rw [min_eq_left (le_of_lt (not_le.mp h5))] at hMj
      exact absurd hj5 (not_lt.mpr hMj)
  have hnj : n ≤ j + 1 := Nat.sub_le_iff_le_add.mp hn1j
  have hnp : (j + 1) ∉ periodsPresent l := by
    rw [h, Finset.mem_range]
    exact not_lt.mpr hnj
  simp only [Function.comp]
  exact retention_eq_none_of_not_period hnp c

lemma toFinset_of_perm {α : Type} [DecidableEq α] {l1 l2 : List α}
    (h : l1.Perm l2) : l1.toFinset = l2.toFinset := by
  rw [← List.toFinset_coe, ← List.toFinset_coe, Multiset.coe_eq_coe.mpr h]

lemma perm_userDates {l l' : List CohortEvent} (h : l.Perm l') (u : ℕ) :
    userDates l u = userDates l' u :=
  toFinset_of_perm ((h.filter _).map _)

lemma perm_userMinDate {l l' : List CohortEvent} (h : l.Perm l') (u : ℕ) :
    userMinDate l u = userMinDate l' u := by
  unfold userMinDate
  rw [perm_userDates h u]

lemma perm_cohortMonth {l l' : List CohortEvent} (h : l.Perm l') (u : ℕ) :
    cohortMonth l u = cohortMonth l' u := by
  unfold cohortMonth
  rw [perm_userMinDate h u]

lemma perm_periodNumber {l l' : List CohortEvent} (h : l.Perm l')
    (r : CohortEvent) : periodNumber l r = periodNumber l' r := by
  unfold periodNumber
  rw [perm_cohortMonth h]

lemma perm_cellUsers {l l' : List CohortEvent} (h : l.Perm l') (c p : ℕ) :
    cellUsers l c p = cellUsers l' c p := by
  unfold cellUsers
  have hpred : ∀ r ∈ l',
      (decide (cohortMonth l' r.user_id = c ∧ periodNumber l' r = p)) =
      (decide (cohortMonth l r.user_id = c ∧ periodNumber l r = p)) := by
    intro r _
    rw [perm_cohortMonth h, perm_periodNumber h]
  rw [List.filter_congr hpred]
  exact toFinset_of_perm ((h.filter _).map _)

lemma perm_cohortCount {l l' : List CohortEvent} (h : l.Perm l') (c p : ℕ) :
    cohortCount l c p = cohortCount l' c p := by
  unfold cohortCount
  rw [perm_cellUsers h c p]

lemma perm_cohortCell {l l' : List CohortEvent} (h : l.Perm l') (c p : ℕ) :
    cohortCell l c p = cohortCell l' c p := by
  unfold cohortCell
  rw [perm_cohortCount h c p]

lemma perm_cohortsPresent {l l' : List CohortEvent} (h : l.Perm l') :
    cohortsPresent l = cohortsPresent l' := by
  unfold cohortsPresent
  have hmap : l'.map (fun r => cohortMonth l r.user_id) =
      l'.map (fun r => cohortMonth l' r.user_id) :=
    List.map_congr_left (fun r _ => perm_cohortMonth h r.user_id)
  rw [← hmap]
  exact toFinset_of_perm (h.map _)

lemma perm_periodsPresent {l l' : List CohortEvent} (h : l.Perm l') :
    periodsPresent l = periodsPresent l' := by
  unfold periodsPresent
  have hmap : l'.map (fun r => periodNumber l r) =
      l'.map (fun r => periodNumber l' r) :=
    List.map_congr_left (fun r _ => perm_periodNumber h r)
  rw [← hmap]
  exact toFinset_of_perm (h.map _)

lemma perm_cohortSize {l l' : List CohortEvent} (h : l.Perm l') (c : ℕ) :
    cohortSize l c = cohortSize l' c := by
  unfold cohortSize firstColPeriod
  rw [perm_periodsPresent h]
  by_cases hp : (periodsPresent l').Nonempty
  · rw [dif_pos hp, perm_cohortCount h]
  · rw [dif_neg hp, perm_cohortCount h]

lemma perm_retention {l l' : List CohortEvent} (h : l.Perm l') (c p : ℕ) :
    retention l c p = retention l' c p := by
  unfold retention
  rw [perm_cohortCell h c p, perm_cohortSize h c]

end Cohort

namespace Funnel

lemma funnelMetricsAux_length (l : List FunnelEvent) (total : ℕ) :
    ∀ (stages : List String) (prev : Option ℕ),
      (funnelMetricsAux l total prev stages).length = stages.length := by
  intro stages
  induction stages with
  | nil => intro prev; rfl
  | cons s rest ih =>
    intro prev
    simp [funnelMetricsAux, ih]

lemma funnelMetrics_length (l : List FunnelEvent) (stages : List String) :
    (funnelMetrics l stages).length = stages.length :=
  funnelMetricsAux_length l (totalLeads l) stages none

lemma funnelMetricsAux_getD_base (l : List FunnelEvent) (total : ℕ) :
    ∀ (stages : List String) (prev : Option ℕ) (i : ℕ), i < stages.length →
      ((funnelMetricsAux l total prev stages).getD i defaultMetric).stage =
          stages.getD i "" ∧
        ((funnelMetricsAux l total prev stages).getD i defaultMetric).users =
          stageUsers l (stages.getD i "") ∧
        ((funnelMetricsAux l total prev stages).getD i
              defaultMetric).overall_conversion =
          (if 0 < total then
            (stageUsers l (stages.getD i "") : ℚ) / (total : ℚ) * 100
          else 0) := by
  intro stages
  induction stages with
  | nil =>
    intro prev i hi
    simp at hi
  | cons s rest ih =>
    intro prev i hi
    cases i with
    | zero => refine ⟨rfl, rfl, rfl⟩
    | succ j =>
      have hj : j < rest.length := by simpa using hi
      simpa only [funnelMetricsAux, List.getD_cons_succ] using
        ih (some (stageUsers l s)) j hj

lemma funnelMetricsAux_sc_zero (l : List FunnelEvent) (total : ℕ)
    (stages : List String) (prev : Option ℕ) (h : stages ≠ []) :
    ((funnelMetricsAux l total prev stages).getD 0
        defaultMetric).stage_conversion =
      (match prev with
       | none => 100
       | some pu =>
         if 0 < pu then (stageUsers l (stages.getD 0 "") : ℚ) / (pu : ℚ) * 100
         else 0) := by
  cases stages with
  | nil => exact absurd rfl h
  | cons s rest => cases prev <;> rfl

lemma funnelMetricsAux_sc_succ (l : List FunnelEvent) (total : ℕ) :
    ∀ (stages : List String) (prev : Option ℕ) (i : ℕ), i + 1 < stages.length →
      ((funnelMetricsAux l total prev stages).getD (i + 1)
          defaultMetric).stage_conversion =
        (if 0 < stageUsers l (stages.getD i "") then
          (stageUsers l (stages.getD (i + 1) "") : ℚ) /
            (stageUsers l (stages.getD i "") : ℚ) * 100
        else 0) := by
  intro stages
  induction stages with
  | nil =>
    intro prev i hi
    simp at hi
  | cons s rest ih =>
    intro prev i hi
    cases i with
    | zero =>
      have hr : rest ≠ [] := by
        intro hnil
        subst hnil
        simp at hi
      have h0 := funnelMetricsAux_sc_zero l total rest
        (some (stageUsers l s)) hr
      simp only [funnelMetricsAux, List.getD_cons_succ, List.getD_cons_zero]
      rw [h0]
    | succ j =>
      have hj : j + 1 < rest.length := by simpa using hi
      simp only [funnelMetricsAux, List.getD_cons_succ]
      exact ih (some (stageUsers l s)) j hj

lemma convSeries_mem :
    ∀ (ms : List StageMetric) (k : ℕ) (q : ℕ × ℚ),
      q ∈ convSeries k ms ↔
        ∃ j, j < ms.length ∧
          q = (k + j, (ms.getD j defaultMetric).stage_conversion) := by
  intro ms
  induction ms with
  | nil =>
    intro k q
    simp [convSeries]
  | cons m rest ih =>
    intro k q
    simp only [convSeries, List.mem_cons, ih (k + 1)]
    constructor
    · rintro (rfl | ⟨j, hj, rfl⟩)
      · exact ⟨0, by simp, by simp⟩
      · refine ⟨j + 1, by simpa using hj, ?_⟩
        simp only [List.getD_cons_succ]
        congr 1
        omega
    · rintro ⟨j, hj, rfl⟩
      cases j with
      | zero => left; simp
      | succ j' =>
        right
        refine ⟨j', by simpa using hj, ?_⟩
        simp only [List.getD_cons_succ]
        congr 1
        omega

lemma convSeries_pairwise :
    ∀ (ms : List StageMetric) (k : ℕ),
      (convSeries k ms).Pairwise (fun a b => a.1 < b.1) := by
  intro ms
  induction ms with
  | nil =>
    intro k
    simp [convSeries]
  | cons m rest ih =>
    intro k
    rw [convSeries, List.pairwise_cons]
    refine ⟨?_, ih (k + 1)⟩
    intro q hq
    obtain ⟨j, _, rfl⟩ := (convSeries_mem rest (k + 1) q).mp hq
    simp
    omega

lemma convSeries_length :
    ∀ (ms : List StageMetric) (k : ℕ), (convSeries k ms).length = ms.length := by
  intro ms
  induction ms with
  | nil => intro k; rfl
  | cons m rest ih =>
    intro k
    simp [convSeries, ih]

lemma uniqueFirstSeen_mem :
    ∀ (L : List String) (x : String), x ∈ uniqueFirstSeen L ↔ x ∈ L := by
  intro L
  induction L using uniqueFirstSeen.induct with
  | case1 =>
    intro x
    rw [uniqueFirstSeen]
  | case2 s rest ih =>
    intro x
    rw [uniqueFirstSeen]
    simp only [List.mem_cons, ih, List.mem_filter, decide_eq_true_eq, ne_eq]
    by_cases hxs : x = s
    · simp [hxs]
    · simp [hxs]

lemma firstIdx_filter_lt_iff :
    ∀ (L : List String) (pq : String → Bool) (t u : String),
      t ∈ L.filter pq → u ∈ L.filter pq →
      ((firstIdx t (L.filter pq) < firstIdx u (L.filter pq)) ↔
        firstIdx t L < firstIdx u L) := by
  intro L
  induction L with
  | nil =>
    intro pq t u ht _
    simp at ht
  | cons a L' ih =>
    intro pq t u ht hu
    by_cases hpa : pq a
    · rw [List.filter_cons_of_pos hpa] at ht hu ⊢
      by_cases hat : a = t
      · by_cases hau : a = u
        · rw [← hat, ← hau]
          simp [firstIdx]
        · have htu : t ≠ u := by
            rw [← hat]
            exact hau
          simp [firstIdx, hat, hau, htu]
      · by_cases hau : a = u
        · simp [firstIdx, hat, hau]
        · have ht' : t ∈ L'.filter pq := by
            rcases List.mem_cons.mp ht with h | h
            · exact absurd h.symm hat
            · exact h
          have hu' : u ∈ L'.filter pq := by
            rcases List.mem_cons.mp hu with h | h
            · exact absurd h.symm hau
            · exact h
          simp only [firstIdx, if_neg hat, if_neg hau,
            Nat.add_lt_add_iff_right]
          exact ih pq t u ht' hu'
    · rw [List.filter_cons_of_neg hpa] at ht hu ⊢
      have hat : a ≠ t := by
        intro heq
        subst heq
        exact hpa (List.of_mem_filter ht)
      have hau : a ≠ u := by
        intro heq
        subst heq
        exact hpa (List.of_mem_filter hu)
      simp only [firstIdx, if_neg hat, if_neg hau, Nat.add_lt_add_iff_right]
      exact ih pq t u ht hu

lemma uniqueFirstSeen_pairwise :
    ∀ (L : List String),
      (uniqueFirstSeen L).Pairwise (fun s t => firstIdx s L < firstIdx t L) := by
  intro L
  induction L using uniqueFirstSeen.induct with
  | case1 =>
    rw [uniqueFirstSeen]
    exact List.Pairwise.nil
  | case2 s rest ih =>
    rw [uniqueFirstSeen, List.pairwise_cons]
    constructor
    · intro t ht
      have htf := (uniqueFirstSeen_mem _ t).mp ht
      have hts : t ≠ s := by
        have := List.of_mem_filter htf
        simpa using this
      simp [firstIdx, Ne.symm hts]
    · refine ih.imp_of_mem ?_
      intro a b ha hb hab
      have haf := (uniqueFirstSeen_mem _ a).mp ha
      have hbf := (uniqueFirstSeen_mem _ b).mp hb
      have has : a ≠ s := by
        have := List.of_mem_filter haf
        simpa using this
      have hbs : b ≠ s := by
        have := List.of_mem_filter hbf
        simpa using this
      have hrest : firstIdx a rest < firstIdx b rest :=
        (firstIdx_filter_lt_iff rest _ a b haf hbf).mp hab
      simp only [firstIdx, if_neg (Ne.symm has), if_neg (Ne.symm hbs),
        Nat.add_lt_add_iff_right]
      exact hrest

end Funnel

/-- C1: for every (cohort month, elapsed period) pair present in the cohort
table, the retention value equals that cell's distinct-user count divided by
the same cohort's period-0 distinct-user count, times 100. -/
theorem claim_C1 (l : List Cohort.CohortEvent) (c p : ℕ)
    (h : 0 < Cohort.cohortCount l c p) :
    Cohort.retention l c p =
      some ((Cohort.cohortCount l c p : ℚ) /
        (Cohort.cohortCount l c 0 : ℚ) * 100) := by
  have hnil := Cohort.ne_nil_of_count_pos h
  unfold Cohort.retention Cohort.cohortCell
  rw [if_pos h]
  show some ((Cohort.cohortCount l c p : ℚ) /
    (Cohort.cohortSize l c : ℚ) * 100) = _
  rw [Cohort.cohortSize_eq_count_zero hnil]

/-- Witness for C1 on the spec's cohort scenario: the (600, 1) cell. -/
theorem claim_C1_witness :
    0 < Cohort.cohortCount wCohort 600 1 ∧
      Cohort.retention wCohort 600 1 =
        some ((Cohort.cohortCount wCohort 600 1 : ℚ) /
          (Cohort.cohortCount wCohort 600 0 : ℚ) * 100) :=
  ⟨by decide, claim_C1 wCohort 600 1 (by decide)⟩

/-- C2: on any non-empty input, every cohort month present in the table has
a positive period-0 distinct-user count, that count is the divisor
(the cohort size), and the period-0 retention value is exactly 100%. -/
theorem claim_C2 (l : List Cohort.CohortEvent) (c : ℕ) (hl : l ≠ [])
    (hc : c ∈ Cohort.cohortsPresent l) :
    0 < Cohort.cohortCount l c 0 ∧
      Cohort.cohortSize l c = Cohort.cohortCount l c 0 ∧
      Cohort.retention l c 0 = some 100 := by
  have hpos := Cohort.count_zero_pos hc
  refine ⟨hpos, Cohort.cohortSize_eq_count_zero hl c, ?_⟩
  unfold Cohort.retention Cohort.cohortCell
  rw [if_pos hpos]
  show some ((Cohort.cohortCount l c 0 : ℚ) /
    (Cohort.cohortSize l c : ℚ) * 100) = some 100
  rw [Cohort.cohortSize_eq_count_zero hl]
  have hne : (Cohort.cohortCount l c 0 : ℚ) ≠ 0 :=
    Nat.cast_ne_zero.mpr (Nat.pos_iff_ne_zero.mp hpos)
  rw [div_self hne, one_mul]

/-- Witness for C2 on the spec's cohort scenario: cohort month 600. -/
theorem claim_C2_witness :
    wCohort ≠ [] ∧ 600 ∈ Cohort.cohortsPresent wCohort ∧
      Cohort.retention wCohort 600 0 = some 100 :=
  ⟨by decide, by decide, (claim_C2 wCohort 600 (by decide) (by decide)).2.2⟩

/-- C9: a (cohort, period) cell with no events is missing (`none`), not
zero, and the per-period average retention is the mean over only the
cohorts that have a value at that period (missing cells appear in neither
numerator nor denominator). -/
theorem claim_C9 (l : List Cohort.CohortEvent) (c p : ℕ)
    (h : Cohort.cohortCount l c p = 0) :
    Cohort.retention l c p = none ∧
      Cohort.avgRetention l p =
        (let present := (Cohort.cohortRows l).filter
          (fun c' => decide (0 < Cohort.cohortCount l c' p));
        if present.length = 0 then none
        else some ((present.map (fun c' => Cohort.retentionVal l c' p)).sum /
          (present.length : ℚ))) := by
  constructor
  · unfold Cohort.retention Cohort.cohortCell
    rw [h]
    simp
  · unfold Cohort.avgRetention Cohort.nanmean
    have hred := Cohort.reduceOption_map_eq_filter_map (Cohort.cohortRows l)
      (fun c' => Cohort.retention l c' p)
      (fun c' => Cohort.retentionVal l c' p)
      (fun c' v hv => Cohort.retention_eq_some hv)
    have hpred : (fun c' => (Cohort.retention l c' p).isSome) =
        (fun c' => decide (0 < Cohort.cohortCount l c' p)) := by
      funext c'
      by_cases hb : 0 < Cohort.cohortCount l c' p
      · simp [Cohort.retention_isSome_iff, hb]
      · have hz : Cohort.cohortCount l c' p = 0 := Nat.eq_zero_of_not_pos hb
        have hnone : Cohort.retention l c' p = none := by
          unfold Cohort.retention Cohort.cohortCell
          rw [hz]
          simp
        simp [hb, hnone]
    rw [hred, hpred]
    simp only [List.length_map]

/-- Witness for C9: the spec scenario has no (600, 3) cell. -/
theorem claim_C9_witness :
    Cohort.cohortCount wCohort 600 3 = 0 ∧
      Cohort.retention wCohort 600 3 = none :=
  ⟨by decide, (claim_C9 wCohort 600 3 (by decide)).1⟩

/-- C10: the cohort table (cells, rows and columns) and the retention table
are invariant under any permutation of the input records. -/
theorem claim_C10 (l l' : List Cohort.CohortEvent) (h : l.Perm l') :
    (∀ c p, Cohort.cohortCell l c p = Cohort.cohortCell l' c p) ∧
      Cohort.cohortsPresent l = Cohort.cohortsPresent l' ∧
      Cohort.periodsPresent l = Cohort.periodsPresent l' ∧
      (∀ c p, Cohort.retention l c p = Cohort.retention l' c p) :=
  ⟨fun c p => Cohort.perm_cohortCell h c p, Cohort.perm_cohortsPresent h,
    Cohort.perm_periodsPresent h, fun c p => Cohort.perm_retention h c p⟩

/-- Witness for C10 on a two-record input and its reversal. -/
theorem claim_C10_witness :
    wPermA.Perm wPermB ∧
      Cohort.retention wPermA 600 0 = Cohort.retention wPermB 600 0 :=
  ⟨by decide, (claim_C10 wPermA wPermB (by decide)).2.2.2 600 0⟩

set_option maxRecDepth 40000 in
/-- Counterexample for C4: on `cexCohort` the period columns are {0, 1, 7},
so `iloc[:, 1:6]` selects the columns labelled 1 and 7, not periods 1–5.
Cohort 600 has the highest mean retention over periods 1–5 (100 vs 200/3),
yet the code reports cohort 601 as best. -/
theorem claim_C4_counterexample :
    Cohort.bestCohort cexCohort = some 601 ∧
      Cohort.specBestCohort cexCohort = some 600 ∧
      Cohort.bestCohort cexCohort ≠ Cohort.specBestCohort cexCohort := by
  refine ⟨?_, ?_, ?_⟩ <;> with_unfolding_all decide

/-- C4 (amended): when the set of elapsed-period columns is contiguous from
0 (equal to {0, …, n−1}), the best (worst) cohort reported is the cohort
whose mean retention across elapsed periods 1–5, ignoring missing cells,
is highest (lowest), first in row order on ties. -/
theorem claim_C4_amended (l : List Cohort.CohortEvent) (n : ℕ)
    (h : Cohort.periodsPresent l = Finset.range n) :
    Cohort.bestCohort l = Cohort.specBestCohort l ∧
      Cohort.worstCohort l = Cohort.specWorstCohort l := by
  have hfun : Cohort.rowMean15 l = Cohort.specRowMean15 l :=
    funext (fun c => Cohort.rowMean15_eq_spec h c)
  unfold Cohort.bestCohort Cohort.specBestCohort Cohort.worstCohort
    Cohort.specWorstCohort
  rw [hfun]
  exact ⟨rfl, rfl⟩

/-- Witness for the amended C4 on the spec's cohort scenario, whose period
columns are the contiguous set {0, 1, 2}. -/
theorem claim_C4_amended_witness :
    Cohort.periodsPresent wCohort = Finset.range 3 ∧
      Cohort.bestCohort wCohort = Cohort.specBestCohort wCohort :=
  ⟨by decide, (claim_C4_amended wCohort 3 (by decide)).1⟩

/-- C6: for both scripts, an unsubstituted data placeholder makes the run
exit with status 0 after the usage hint, with no aggregation performed. -/
theorem claim_C6 (parseC : String → List Cohort.CohortEvent)
    (parseF : String → List Funnel.FunnelEvent) (dj s : String)
    (h : dj = dataPlaceholder) :
    cohortMain parseC dj = ScriptResult.templateHint 0 ∧
      funnelMain parseF dj s = ScriptResult.templateHint 0 := by
  constructor
  · unfold cohortMain
    rw [if_pos h]
  · unfold funnelMain
    rw [if_pos h]

/-- Witness for C6: running both templates on the literal placeholder. -/
theorem claim_C6_witness :
    dataPlaceholder = dataPlaceholder ∧
      cohortMain (fun _ => []) dataPlaceholder =
        ScriptResult.templateHint 0 :=
  ⟨rfl, (claim_C6 (fun _ => []) (fun _ => []) dataPlaceholder "" rfl).1⟩

/-- C3: the first stage's stage conversion is exactly 100, and each later
stage's equals its distinct-user count over the previous stage's
distinct-user count times 100, or 0 when the previous count is 0. -/
theorem claim_C3 (l : List Funnel.FunnelEvent) (stages : List String) (i : ℕ)
    (hi : i < stages.length) :
    (Funnel.metricAt l stages i).stage_conversion =
      (if i = 0 then 100
       else if 0 < Funnel.stageUsers l (stages.getD (i - 1) "") then
         (Funnel.stageUsers l (stages.getD i "") : ℚ) /
           (Funnel.stageUsers l (stages.getD (i - 1) "") : ℚ) * 100
       else 0) := by
  cases i with
  | zero =>
    rw [if_pos rfl]
    unfold Funnel.metricAt Funnel.funnelMetrics
    have hne : stages ≠ [] := by
      intro hn
      subst hn
      simp at hi
    rw [Funnel.funnelMetricsAux_sc_zero l (Funnel.totalLeads l) stages none hne]
  | succ j =>
    rw [if_neg (Nat.succ_ne_zero j)]
    unfold Funnel.metricAt Funnel.funnelMetrics
    rw [Funnel.funnelMetricsAux_sc_succ l (Funnel.totalLeads l) stages none j hi]
    simp only [Nat.succ_sub_one]

/-- Witness for C3 on the spec's funnel scenario, stage index 1. -/
theorem claim_C3_witness :
    1 < wStages.length ∧
      (Funnel.metricAt wFunnel wStages 1).stage_conversion =
        (if (1 : ℕ) = 0 then 100
         else if 0 < Funnel.stageUsers wFunnel (wStages.getD 0 "") then
           (Funnel.stageUsers wFunnel (wStages.getD 1 "") : ℚ) /
             (Funnel.stageUsers wFunnel (wStages.getD 0 "") : ℚ) * 100
         else 0) :=
  ⟨by decide, claim_C3 wFunnel wStages 1 (by decide)⟩

/-- C5: with an empty stage-configuration string, the configured stage
order is exactly the distinct stage values observed in the data in
first-seen order: same members, and positions ordered by the index of each
value's first occurrence (hence no duplicates). -/
theorem claim_C5 (l : List Funnel.FunnelEvent) :
    (∀ x, x ∈ Funnel.funnelStages "" l ↔ x ∈ l.map (fun r => r.stage)) ∧
      (Funnel.funnelStages "" l).Pairwise
        (fun s t => Funnel.firstIdx s (l.map (fun r => r.stage)) <
          Funnel.firstIdx t (l.map (fun r => r.stage))) := by
  have hfs : Funnel.funnelStages "" l =
      Funnel.uniqueFirstSeen (l.map (fun r => r.stage)) := by
    unfold Funnel.funnelStages
    simp
  rw [hfs]
  exact ⟨fun x => Funnel.uniqueFirstSeen_mem _ x,
    Funnel.uniqueFirstSeen_pairwise _⟩

/-- C7: between consecutive configured stages, the drop-off equals the
previous stage's distinct-user count minus the current one's, and the
drop-off rate is that difference over the previous count times 100, or 0
when the previous count is 0. -/
theorem claim_C7 (l : List Funnel.FunnelEvent) (stages : List String) (i : ℕ)
    (hi : i + 1 < stages.length) :
    Funnel.dropoffAt l stages i =
      (Funnel.stageUsers l (stages.getD i "") : ℤ) -
        (Funnel.stageUsers l (stages.getD (i + 1) "") : ℤ) ∧
      Funnel.dropoffRateAt l stages i =
        (if 0 < Funnel.stageUsers l (stages.getD i "") then
          ((Funnel.stageUsers l (stages.getD i "") : ℚ) -
            (Funnel.stageUsers l (stages.getD (i + 1) "") : ℚ)) /
            (Funnel.stageUsers l (stages.getD i "") : ℚ) * 100
        else 0) := by
  have hii : i < stages.length := Nat.lt_of_succ_lt hi
  have hb1 := (Funnel.funnelMetricsAux_getD_base l (Funnel.totalLeads l)
    stages none i hii).2.1
  have hb2 := (Funnel.funnelMetricsAux_getD_base l (Funnel.totalLeads l)
    stages none (i + 1) hi).2.1
  have hu1 : (Funnel.metricAt l stages i).users =
      Funnel.stageUsers l (stages.getD i "") := hb1
  have hu2 : (Funnel.metricAt l stages (i + 1)).users =
      Funnel.stageUsers l (stages.getD (i + 1) "") := hb2
  have hdrop : Funnel.dropoffAt l stages i =
      (Funnel.stageUsers l (stages.getD i "") : ℤ) -
        (Funnel.stageUsers l (stages.getD (i + 1) "") : ℤ) := by
    unfold Funnel.dropoffAt
    rw [hu1, hu2]
  refine ⟨hdrop, ?_⟩
  unfold Funnel.dropoffRateAt
  rw [hdrop, hu1]
  by_cases hpos : 0 < Funnel.stageUsers l (stages.getD i "")
  · rw [if_pos hpos, if_pos hpos]
    push_cast
    ring
  · rw [if_neg hpos, if_neg hpos]

/-- Witness for C7 on the spec's funnel scenario: the lead → qualified
drop-off. -/
theorem claim_C7_witness :
    0 + 1 < wStages.length ∧
      Funnel.dropoffAt wFunnel wStages 0 =
        (Funnel.stageUsers wFunnel (wStages.getD 0 "") : ℤ) -
          (Funnel.stageUsers wFunnel (wStages.getD 1 "") : ℤ) :=
  ⟨by decide, (claim_C7 wFunnel wStages 0 (by decide)).1⟩

/-- C8: with at least two configured stages, the reported biggest-drop-off
index is the stage, excluding the first, with the lowest stage conversion,
and the best-conversion index the one with the highest; ties go to the
stage occurring first in configured order. -/
theorem claim_C8 (l : List Funnel.FunnelEvent) (stages : List String)
    (h2 : 2 ≤ stages.length) :
    ∃ i j, Funnel.biggestDropoffIdx l stages = some i ∧
      Funnel.bestStageIdx l stages = some j ∧
      1 ≤ i ∧ i < stages.length ∧ 1 ≤ j ∧ j < stages.length ∧
      (∀ k, 1 ≤ k → k < stages.length →
        (Funnel.metricAt l stages i).stage_conversion ≤
          (Funnel.metricAt l stages k).stage_conversion) ∧
      (∀ k, 1 ≤ k → k < i →
        (Funnel.metricAt l stages i).stage_conversion <
          (Funnel.metricAt l stages k).stage_conversion) ∧
      (∀ k, 1 ≤ k → k < stages.length →
        (Funnel.metricAt l stages k).stage_conversion ≤
          (Funnel.metricAt l stages j).stage_conversion) ∧
      (∀ k, 1 ≤ k → k < j →
        (Funnel.metricAt l stages k).stage_conversion <
          (Funnel.metricAt l stages j).stage_conversion) := by
  have hlen := Funnel.funnelMetrics_length l stages
  cases hM : Funnel.funnelMetrics l stages with
  | nil =>
    rw [hM] at hlen
    simp at hlen
    omega
  | cons m0 rest =>
    rw [hM] at hlen
    simp only [List.length_cons] at hlen
    have hser : (Funnel.scSeries l stages).drop 1 =
        Funnel.convSeries 1 rest := by
      unfold Funnel.scSeries
      rw [hM]
      rfl
    have hcne : Funnel.convSeries 1 rest ≠ [] := by
      intro hnil
      have hcl := Funnel.convSeries_length rest 1
      rw [hnil] at hcl
      simp at hcl
      omega
    have hmet : ∀ k', Funnel.metricAt l stages (k' + 1) =
        rest.getD k' Funnel.defaultMetric := by
      intro k'
      unfold Funnel.metricAt
      rw [hM]
      exact List.getD_cons_succ
    have hkmem : ∀ k, 1 ≤ k → k < stages.length →
        (k, (Funnel.metricAt l stages k).stage_conversion) ∈
          Funnel.convSeries 1 rest := by
      intro k hk1 hklen
      have hk : k = (k - 1) + 1 := by omega
      rw [hk, hmet (k - 1)]
      apply (Funnel.convSeries_mem rest 1 _).mpr
      refine ⟨k - 1, by omega, ?_⟩
      congr 1
      omega
    obtain ⟨p, hpeq, hpmem, hpmin, hpfirst⟩ :=
      argminFirst_spec _ hcne (Funnel.convSeries_pairwise rest 1)
    obtain ⟨q, hqeq, hqmem, hqmax, hqfirst⟩ :=
      argmaxFirst_spec _ hcne (Funnel.convSeries_pairwise rest 1)
    obtain ⟨jp, hjp, hpval⟩ := (Funnel.convSeries_mem rest 1 p).mp hpmem
    obtain ⟨jq, hjq, hqval⟩ := (Funnel.convSeries_mem rest 1 q).mp hqmem
    have hp2 : p.2 = (Funnel.metricAt l stages (jp + 1)).stage_conversion := by
      rw [hpval, hmet jp]
    have hq2 : q.2 = (Funnel.metricAt l stages (jq + 1)).stage_conversion := by
      rw [hqval, hmet jq]
    refine ⟨jp + 1, jq + 1, ?_, ?_, by omega, by omega, by omega, by omega,
      ?_, ?_, ?_, ?_⟩
    · unfold Funnel.biggestDropoffIdx
      rw [hser, hpeq, hpval]
      show some (1 + jp) = some (jp + 1)
      congr 1
      omega
    · unfold Funnel.bestStageIdx
      rw [hser, hqeq, hqval]
      show some (1 + jq) = some (jq + 1)
      congr 1
      omega
    · intro k hk1 hklen
      have h := hpmin _ (hkmem k hk1 hklen)
      rw [hp2] at h
      exact h
    · intro k hk1 hki
      have hklen : k < stages.length := by omega
      have hlt : (k, (Funnel.metricAt l stages k).stage_conversion).1 < p.1 := by
        rw [hpval]
        show k < 1 + jp
        omega
      have h := hpfirst _ (hkmem k hk1 hklen) hlt
      rw [hp2] at h
      exact h
    · intro k hk1 hklen
      have h := hqmax _ (hkmem k hk1 hklen)
      rw [hq2] at h
      exact h
    · intro k hk1 hki
      have hklen : k < stages.length := by omega
      have hlt : (k, (Funnel.metricAt l stages k).stage_conversion).1 < q.1 := by
        rw [hqval]
        show k < 1 + jq
        omega
      have h := hqfirst _ (hkmem k hk1 hklen) hlt
      rw [hq2] at h
      exact h

/-- Witness for C8 on the spec's funnel scenario (three stages). -/
theorem claim_C8_witness :
    2 ≤ wStages.length ∧
      (∃ i j, Funnel.biggestDropoffIdx wFunnel wStages = some i ∧
        Funnel.bestStageIdx wFunnel wStages = some j ∧
        1 ≤ i ∧ i < wStages.length ∧ 1 ≤ j ∧ j < wStages.length ∧
        (∀ k, 1 ≤ k → k < wStages.length →
          (Funnel.metricAt wFunnel wStages i).stage_conversion ≤
            (Funnel.metricAt wFunnel wStages k).stage_conversion) ∧
        (∀ k, 1 ≤ k → k < i →
          (Funnel.metricAt wFunnel wStages i).stage_conversion <
            (Funnel.metricAt wFunnel wStages k).stage_conversion) ∧
        (∀ k, 1 ≤ k → k < wStages.length →
          (Funnel.metricAt wFunnel wStages k).stage_conversion ≤
            (Funnel.metricAt wFunnel wStages j).stage_conversion) ∧
        (∀ k, 1 ≤ k → k < j →
          (Funnel.metricAt wFunnel wStages k).stage_conversion <
            (Funnel.metricAt wFunnel wStages j).stage_conversion)) :=
  ⟨by decide, claim_C8 wFunnel wStages (by decide)⟩
